import Mathlib

/-!
Verification of the s2voronoi repository: a shallow embedding of the
spherical Delaunay / Voronoi pipeline (packages `s2delaunay` and
`s2voronoi`) together with proofs about the embedded code.

Modelling conventions:
* `float64` coordinates are embedded as exact rationals (`ℚ`); all the
  claims under study are structural / branch-level properties for which
  exact arithmetic is the faithful idealization.
* `r3.Vector.Normalize` (external `golang/geo` library, out of scope per
  the spec) divides by an irrational square root, so it is carried as an
  abstract parameter `nrm : Vec3 → Vec3` throughout; where its value
  matters the relevant library fact (`Normalize(zero) = zero`) is either a
  hypothesis or satisfied by the concrete instantiation used.
* The convex-hull provider (external `quickhull-go` library, out of scope
  per the spec) is carried as an oracle parameter
  `hull : List Vec3 → ℚ → List Nat` returning the flat face-index list
  (`ch.Indices`).
* Go run-time panics inside construction are modelled as failures of the
  construction call (`Except.error` / `none`); Go slice indices are
  embedded as `Nat` (the code never produces negative indices, and an
  out-of-range index is modelled as the corresponding failure).
-/

namespace S2V

/-- `r3.Vector`: a 3-vector with exact rational coordinates. -/
structure Vec3 where
  x : ℚ
  y : ℚ
  z : ℚ
  deriving DecidableEq

instance : Add Vec3 := ⟨fun a b => ⟨a.x + b.x, a.y + b.y, a.z + b.z⟩⟩

instance : Sub Vec3 := ⟨fun a b => ⟨a.x - b.x, a.y - b.y, a.z - b.z⟩⟩

instance : Neg Vec3 := ⟨fun a => ⟨-a.x, -a.y, -a.z⟩⟩

/-- The zero vector (`r3.Vector{}`). -/
def Vec3.zero : Vec3 := ⟨0, 0, 0⟩

/-- `r3.Vector.Cross`. -/
def cross (a b : Vec3) : Vec3 :=
  ⟨a.y * b.z - a.z * b.y, a.z * b.x - a.x * b.z, a.x * b.y - a.y * b.x⟩

/-- `r3.Vector.Dot`. -/
def dot (a b : Vec3) : ℚ := a.x * b.x + a.y * b.y + a.z * b.z

/-- `r3.Vector.Mul` (scalar multiplication). -/
def smul (q : ℚ) (a : Vec3) : Vec3 := ⟨q * a.x, q * a.y, q * a.z⟩

/-- A triangle: an ordered triple of vertex indices (`[3]int` in
`s2delaunay`). -/
structure Tri where
  v0 : Nat
  v1 : Nat
  v2 : Nat
  deriving DecidableEq

/-- `s2delaunay.NextVertex` (s2delaunay.go lines 321-331): the vertex after
`v` in the triangle's stored order, by a first-match switch on the three
components.  `none` models the Go panic branch (`vIdx` not in the
triangle); the older method form of the same function returns `-1` there. -/
def NextVertex (t : Tri) (v : Nat) : Option Nat :=
  if v = t.v0 then some t.v1
  else if v = t.v1 then some t.v2
  else if v = t.v2 then some t.v0
  else none

/-- `s2delaunay.PrevVertex` (s2delaunay.go lines 307-317): the vertex before
`v` in the triangle's stored order; `none` models the panic branch. -/
def PrevVertex (t : Tri) (v : Nat) : Option Nat :=
  if v = t.v0 then some t.v2
  else if v = t.v1 then some t.v0
  else if v = t.v2 then some t.v1
  else none

/-- `NextVertex` applied to the triangle at index `t` of `tris`, as done by
`sortIncidentTriangleIndicesCCW` (`tris[incidentTris[i-1]].NextVertex`-style
lookup). -/
def nextOf (v : Nat) (tris : List Tri) (t : Nat) : Option Nat :=
  NextVertex (tris.getD t ⟨0, 0, 0⟩) v

/-- `PrevVertex` applied to the triangle at index `t` of `tris`. -/
def prevOf (v : Nat) (tris : List Tri) (t : Nat) : Option Nat :=
  PrevVertex (tris.getD t ⟨0, 0, 0⟩) v

/-- The inner scan of `sortIncidentTriangleIndicesCCW` (s2delaunay.go lines
295-301): index of the first element of the list whose `prev` value equals
the target, scanning left to right. -/
def findMatch (pf : Nat → Option Nat) (target : Option Nat) : List Nat → Option Nat
  | [] => none
  | x :: xs => if pf x = target then some 0 else (findMatch pf target xs).map (· + 1)

/-- The selection loop of `sortIncidentTriangleIndicesCCW` (s2delaunay.go
lines 293-302), one step per output position: `p` is the element most
recently placed (`incidentTris[i-1]`), the list holds positions `i..n-1` of
the array; a found match at `j` is swapped into position `i`
(`incidentTris[i], incidentTris[j] = incidentTris[j], incidentTris[i]`),
otherwise the position is left as it is.  The fuel argument equals the
list length at every call (the Go loop runs exactly `n-1` bounded
iterations), so the fuel-exhausted branch is unreachable. -/
def chainSortAux (nf pf : Nat → Option Nat) : Nat → Nat → List Nat → List Nat
  | 0, _, l => l
  | _ + 1, _, [] => []
  | fuel + 1, p, h :: t =>
    match findMatch pf (nf p) t with
    | none => h :: chainSortAux nf pf fuel h t
    | some j => t.getD j 0 :: chainSortAux nf pf fuel (t.getD j 0) (t.set j h)

/-- `s2delaunay.sortIncidentTriangleIndicesCCW` (s2delaunay.go lines
291-303): sorts the incident-triangle index list of vertex `v` into CCW fan
order by the selection pass; position 0 is never moved. -/
def sortIncidentTriangleIndicesCCW (v : Nat) (tris : List Tri) (inc : List Nat) : List Nat :=
  match inc with
  | [] => []
  | h :: t => h :: chainSortAux (nextOf v tris) (prevOf v tris) t.length h t

/-- `s2delaunay.sortTriangleVerticesCCW` (s2delaunay.go lines 282-288):
canonicalize a triangle to CCW order viewed from outside the sphere,
swapping the second and third vertices when the orientation test is
negative. -/
def sortTriangleVerticesCCW (vertices : List Vec3) (t : Tri) : Tri :=
  let a := vertices.getD t.v0 Vec3.zero
  let b := vertices.getD t.v1 Vec3.zero
  let c := vertices.getD t.v2 Vec3.zero
  if dot (cross (b - a) (c - a)) a < 0 then ⟨t.v0, t.v2, t.v1⟩ else t

/-- The triangle-building loop of `NewTriangulation` (s2delaunay.go lines
241-250): triangle `i` takes its three vertex indices from positions
`3i, 3i+1, 3i+2` of the hull's flat index list and is then canonicalized. -/
def trianglesOf (vertices : List Vec3) (ch : List Nat) (numTriangles : Nat) : List Tri :=
  (List.range numTriangles).map (fun i =>
    sortTriangleVerticesCCW vertices ⟨ch.getD (3 * i) 0, ch.getD (3 * i + 1) 0, ch.getD (3 * i + 2) 0⟩)

/-- The CSR offsets built by `NewTriangulation` (s2delaunay.go lines
233-238): a tally pass (`IncidentTriangleOffsets[idx+1]++` per hull index)
followed by an in-place prefix sum, so `offsets[k] = Σ_{v<k} count(v)`,
i.e. the number of hull indices with value `< k`. -/
def csrOffsets (ch : List Nat) (n : Nat) : List Nat :=
  (List.range (n + 1)).map (fun k => ch.countP (fun idx => decide (idx < k)))

/-- The scatter pass of `NewTriangulation` (s2delaunay.go lines 239-248):
per-vertex write cursors `nxt` are initialized from the offsets and each
hull index at flat position `p` appends its triangle index `p / 3` to its
vertex's region. -/
def scatterIncidents (ch : List Nat) (offsets : List Nat) (n : Nat) : List Nat :=
  (ch.enum.foldl
    (fun acc pv =>
      (acc.1.set (acc.2.getD pv.2 0) (pv.1 / 3), acc.2.set pv.2 (acc.2.getD pv.2 0 + 1)))
    (List.replicate ch.length 0, offsets.take n)).1

/-- The ordering pass of `NewTriangulation` (s2delaunay.go lines 251-254):
each vertex's region of the incident-index array
(`IncidentTriangles(i)`, the slice `[offsets[v], offsets[v+1])`) is sorted
in place; the regions tile the array, so the result is their
concatenation. -/
def sortAllIncidents (n : Nat) (tris : List Tri) (indices offsets : List Nat) : List Nat :=
  ((List.range n).map (fun v =>
      sortIncidentTriangleIndicesCCW v tris
        ((indices.drop (offsets.getD v 0)).take (offsets.getD (v + 1) 0 - offsets.getD v 0)))).flatten

/-- `defaultEps = 1e-12`. -/
def defaultEps : ℚ := 1 / 1000000000000

/-- `s2delaunay.WithEps` / `s2voronoi.WithEps`: a functional option that
rejects a non-positive epsilon and otherwise stores it.  The option state
is the single `Eps` field.  (The Go message interpolates the value; the
constant message stands for it.) -/
def WithEps (eps : ℚ) : ℚ → Except String ℚ :=
  fun _ => if eps ≤ 0 then Except.error "WithEps: eps must be positive" else Except.ok eps

/-- The functional-option application loop shared by `NewTriangulation` and
`NewDiagram`: apply each setter in order, stopping at the first error. -/
def applyOptions : ℚ → List (ℚ → Except String ℚ) → Except String ℚ
  | e, [] => Except.ok e
  | e, s :: rest =>
    match s e with
    | Except.error m => Except.error m
    | Except.ok e' => applyOptions e' rest

/-- `s2delaunay.Triangulation`. -/
structure Triangulation where
  Vertices : List Vec3
  Triangles : List Tri
  IncidentTriangleIndices : List Nat
  IncidentTriangleOffsets : List Nat
  deriving DecidableEq

/-- `s2delaunay.NewTriangulation` (s2delaunay.go lines 200-256),
parameterized by the hull oracle: apply the options, reject fewer than 4
vertices, call the hull provider, reject an index count other than
`3 * (2N-4)`, build the CSR adjacency and the canonicalized triangles, and
sort each vertex's incident list CCW.  The "panic" error models the Go
runtime panic raised by `IncidentTriangleOffsets[idx+1]++` when the hull
returns an out-of-range vertex index. -/
def NewTriangulation (hull : List Vec3 → ℚ → List Nat) (vertices : List Vec3)
    (setters : List (ℚ → Except String ℚ)) : Except String Triangulation :=
  match applyOptions defaultEps setters with
  | Except.error e => Except.error e
  | Except.ok eps =>
    if vertices.length < 4 then
      Except.error "NewTriangulation: insufficient vertices for triangulation minimum 4 required"
    else
      let numTriangles := 2 * (vertices.length - 2)
      let ch := hull vertices eps
      if ch.length ≠ numTriangles * 3 then
        Except.error "NewTriangulation: inconsistent number of indices returned from QuickHull"
      else if ch.any (fun idx => decide (vertices.length ≤ idx)) then
        Except.error "panic: index out of range"
      else
        let offsets := csrOffsets ch vertices.length
        let tris := trianglesOf vertices ch numTriangles
        Except.ok
          { Vertices := vertices
            Triangles := tris
            IncidentTriangleIndices :=
              sortAllIncidents vertices.length tris (scatterIncidents ch offsets vertices.length) offsets
            IncidentTriangleOffsets := offsets }

/-- `Triangulation.IncidentTriangles` (s2delaunay.go lines 261-269): the
slice of triangle indices incident to vertex `v`. -/
def IncidentTrianglesOf (t : Triangulation) (v : Nat) : List Nat :=
  (t.IncidentTriangleIndices.drop (t.IncidentTriangleOffsets.getD v 0)).take
    (t.IncidentTriangleOffsets.getD (v + 1) 0 - t.IncidentTriangleOffsets.getD v 0)

/-- `s2voronoi.triangleCircumcenter` (unnamed/part_002 lines 283-295): the
cross product of two edge vectors, sign-corrected toward the hemisphere of
the triangle's own vertices.  (The caller, not this function, normalizes.) -/
def triangleCircumcenter (a b c : Vec3) : Vec3 :=
  let v1 := a - b
  let v2 := b - c
  let cc := cross v1 v2
  if dot cc (a + b + c) < 0 then -cc else cc

/-- `s2voronoi.Diagram` (unnamed/part_002 lines 151-168). -/
structure Diagram where
  Sites : List Vec3
  Vertices : List Vec3
  CellVertices : List Nat
  CellNeighbors : List Nat
  CellOffsets : List Nat
  eps : ℚ
  deriving DecidableEq

/-- The neighbor-filling loop of `NewDiagram` (unnamed/part_002 lines
231-238): `CellNeighbors` starts as a zero array of the same length as the
incident-index array, and for each site and each of its incident triangles
(in stored order) the slot `offsets[v] + i` receives
`NextVertex(triangle, v)`; `none` models the `NextVertex` panic. -/
def buildNeighbors (n : Nat) (tris : List Tri) (sorted offsets : List Nat) :
    Option (List Nat) :=
  (List.range n).foldlM
    (fun acc v =>
      ((sorted.drop (offsets.getD v 0)).take (offsets.getD (v + 1) 0 - offsets.getD v 0)).enum.foldlM
        (fun acc2 pt =>
          (NextVertex (tris.getD pt.2 ⟨0, 0, 0⟩) v).map (fun w => acc2.set (offsets.getD v 0 + pt.1) w))
        acc)
    (List.replicate sorted.length 0)

/-- `s2voronoi.NewDiagram` (unnamed/part_002 lines 194-241), parameterized
by the hull oracle and the normalization function `nrm` standing for
`r3.Vector.Normalize`: reject fewer than 4 sites, apply the options, build
the triangulation, store one normalized circumcenter per triangle as a
Voronoi vertex, reuse the incidence arrays as `CellVertices`/`CellOffsets`
and fill `CellNeighbors` from `NextVertex`.  `Sites` is the triangulation's
`Vertices`, which is the caller's site list itself. -/
def NewDiagram (hull : List Vec3 → ℚ → List Nat) (nrm : Vec3 → Vec3) (sites : List Vec3)
    (setters : List (ℚ → Except String ℚ)) : Except String Diagram :=
  if sites.length < 4 then
    Except.error "NewDiagram: insufficient sites for diagram, minimum 4 required"
  else
    match applyOptions defaultEps setters with
    | Except.error e => Except.error e
    | Except.ok eps =>
      match NewTriangulation hull sites [WithEps eps] with
      | Except.error e => Except.error e
      | Except.ok dt =>
        match buildNeighbors sites.length dt.Triangles dt.IncidentTriangleIndices
            dt.IncidentTriangleOffsets with
        | none => Except.error "panic: NextVertex: vIdx not in triangle"
        | some nbrs =>
          Except.ok
            { Sites := dt.Vertices
              Vertices := dt.Triangles.map (fun t =>
                nrm (triangleCircumcenter (dt.Vertices.getD t.v0 Vec3.zero)
                  (dt.Vertices.getD t.v1 Vec3.zero) (dt.Vertices.getD t.v2 Vec3.zero)))
              CellVertices := dt.IncidentTriangleIndices
              CellNeighbors := nbrs
              CellOffsets := dt.IncidentTriangleOffsets
              eps := eps }

/-- `Diagram.NumCells`. -/
def NumCells (d : Diagram) : Nat := d.Sites.length

/-- Structured form of the error built by the fallible accessors of
cell.go / s2voronoi.go via `fmt.Errorf`: the operation name, the offending
index and the valid bound, exactly the data interpolated into the Go
message. -/
inductive CellErr where
  | outOfRange (op : String) (idx : Int) (bound : Nat)
  deriving DecidableEq

/-- `Cell.NumVertices` (cell.go lines 22-24): `offsets[i+1] - offsets[i]`. -/
def Cell.numVertices (d : Diagram) (c : Nat) : Nat :=
  d.CellOffsets.getD (c + 1) 0 - d.CellOffsets.getD c 0

/-- `Diagram.Cell` (s2voronoi.go lines 120-126): range-checked cell lookup
returning the cell view (identified by its index). -/
def Diagram.cell (d : Diagram) (i : Int) : Except CellErr Nat :=
  if i < 0 ∨ (d.Sites.length : Int) ≤ i then
    Except.error (CellErr.outOfRange "Cell" i d.Sites.length)
  else Except.ok i.toNat

/-- `Cell.Vertex` (cell.go lines 30-37): range-checked single-vertex
accessor; on error the offending index and the valid bound are reported. -/
def Cell.vertex (d : Diagram) (c : Nat) (i : Int) : Except CellErr Vec3 :=
  let s := d.CellOffsets.getD c 0
  let e := d.CellOffsets.getD (c + 1) 0
  if i < 0 ∨ ((e - s : Nat) : Int) ≤ i then
    Except.error (CellErr.outOfRange "Vertex" i (e - s))
  else Except.ok (d.Vertices.getD (d.CellVertices.getD (s + i.toNat) 0) Vec3.zero)

/-- `Cell.Neighbor` (cell.go lines 47-58): range-checked single-neighbor
accessor, materializing the neighboring cell through `Diagram.Cell`. -/
def Cell.neighbor (d : Diagram) (c : Nat) (i : Int) : Except CellErr Nat :=
  let s := d.CellOffsets.getD c 0
  let e := d.CellOffsets.getD (c + 1) 0
  if i < 0 ∨ ((e - s : Nat) : Int) ≤ i then
    Except.error (CellErr.outOfRange "Neighbor" i (e - s))
  else d.cell (d.CellNeighbors.getD (s + i.toNat) 0 : Nat)

/-- `Cell.centroid` (unnamed/part_000 lines 81-94): the arithmetic mean of
the cell's boundary-vertex vectors, re-normalized; `none` models the panic
on a cell with no vertices.  Reads only `Vertices`, `CellVertices` and
`CellOffsets` — never `Sites`. -/
def Cell.centroid (nrm : Vec3 → Vec3) (d : Diagram) (c : Nat) : Option Vec3 :=
  let num := Cell.numVertices d c
  if num = 0 then none
  else
    let start := d.CellOffsets.getD c 0
    some (nrm (smul (1 / (num : ℚ))
      ((List.range num).foldl
        (fun s j => s + d.Vertices.getD (d.CellVertices.getD (start + j) 0) Vec3.zero)
        Vec3.zero)))

/-- The per-site update loop of one `Relax` iteration (unnamed/part_002
lines 266-269), generalized to an arbitrary processing order `ord`:
`d.Sites[i] = cell.centroid().Normalize()`, one site at a time, in place. -/
def relaxPassOver (nrm : Vec3 → Vec3) (ord : List Nat) (d : Diagram) : Option Diagram :=
  ord.foldlM
    (fun acc i =>
      (Cell.centroid nrm acc i).map (fun cen => { acc with Sites := acc.Sites.set i (nrm cen) }))
    d

/-- The per-site update loop of one `Relax` iteration exactly as in the
code: sites processed in index order `0, 1, …, NumCells-1`. -/
def relaxPassInPlace (nrm : Vec3 → Vec3) (d : Diagram) : Option Diagram :=
  relaxPassOver nrm (List.range (NumCells d)) d

/-- Collect the centroids of the listed cells, all computed against the
same unmodified diagram `d`; `none` if any cell has no vertices. -/
def collectCentroids (nrm : Vec3 → Vec3) (d : Diagram) : List Nat → Option (List Vec3)
  | [] => some []
  | i :: l =>
    match Cell.centroid nrm d i with
    | none => none
    | some c => (collectCentroids nrm d l).map (fun cs => c :: cs)

/-- Modelled from the spec: "replace every site's position with its current
cell's spherical centroid (computed before any site in that pass is
overwritten … centroids are computed against the *pre-relaxation* diagram
for the whole pass)" — the snapshot-based reference pass that computes all
centroids against the unmodified diagram `d` and then installs them. -/
def snapshotRelaxPass (nrm : Vec3 → Vec3) (d : Diagram) : Option Diagram :=
  (collectCentroids nrm d (List.range (NumCells d))).map
    (fun cs => { d with Sites := cs.map nrm })

/-- The Go message of `Relax` for a negative step count (the Go message
interpolates the value; the constant message stands for it). -/
def relaxErrMsg : String := "Relax: steps must be non-negative"

/-- The iteration loop of `Relax` (unnamed/part_002 lines 265-278): run the
in-place centroid pass, rebuild with `NewDiagram(d.Sites, WithEps(d.eps))`,
return the rebuild error with the mutated diagram if it fails, otherwise
replace the whole diagram (`*d = *nd`) and continue.  The result pairs the
final diagram state with the returned error (`none` = nil); the outer
`none` models a centroid panic. -/
def RelaxGo (hull : List Vec3 → ℚ → List Nat) (nrm : Vec3 → Vec3) :
    Nat → Diagram → Option (Diagram × Option String)
  | 0, d => some (d, none)
  | k + 1, d =>
    match relaxPassInPlace nrm d with
    | none => none
    | some d1 =>
      match NewDiagram hull nrm d1.Sites [WithEps d1.eps] with
      | Except.error e => some (d1, some e)
      | Except.ok nd => RelaxGo hull nrm k nd

/-- `Diagram.Relax` (unnamed/part_002 lines 260-281): reject a negative
step count immediately (diagram untouched), otherwise iterate. -/
def Relax (hull : List Vec3 → ℚ → List Nat) (nrm : Vec3 → Vec3) (d : Diagram) (steps : Int) :
    Option (Diagram × Option String) :=
  if steps < 0 then some (d, some relaxErrMsg) else RelaxGo hull nrm steps.toNat d

/-!
Store-level model of slice ownership, needed to talk about aliasing between
the caller-supplied site slice and the diagram's `Sites` field.  Only the
point arrays whose sharing the claims mention are kept in the heap: a heap
is a list of point arrays and a slice is an index into it.  Everything else
of the diagram is plain data (those arrays are freshly allocated inside the
construction call and never shared with the caller).
-/

/-- A heap of point arrays; a Go slice of points is an index into it. -/
abbrev Heap := List (List Vec3)

/-- A `Diagram` whose `Sites` slice is a heap reference, mirroring the Go
struct: `NewDiagram` sets `d.Sites = dt.Vertices`, and `NewTriangulation`
sets `dt.Vertices = vertices` — the caller's slice itself, with no copy. -/
structure DiagramRef where
  sitesRef : Nat
  Vertices : List Vec3
  CellVertices : List Nat
  CellNeighbors : List Nat
  CellOffsets : List Nat
  eps : ℚ
  deriving DecidableEq

/-- Read a `DiagramRef` back into a value-level `Diagram` by dereferencing
its `Sites` slice in the heap. -/
def diagOf (h : Heap) (dr : DiagramRef) : Diagram :=
  { Sites := h.getD dr.sitesRef []
    Vertices := dr.Vertices
    CellVertices := dr.CellVertices
    CellNeighbors := dr.CellNeighbors
    CellOffsets := dr.CellOffsets
    eps := dr.eps }

/-- `NewDiagram` at the store level: the construction only reads the
caller's array (every derived array is freshly allocated), so the heap is
returned unchanged, and the resulting diagram's `Sites` is a reference to
the caller's array (`d.Sites = dt.Vertices = sites`). -/
def NewDiagramS (hull : List Vec3 → ℚ → List Nat) (nrm : Vec3 → Vec3) (h : Heap) (r : Nat)
    (setters : List (ℚ → Except String ℚ)) : Except String (Heap × DiagramRef) :=
  match NewDiagram hull nrm (h.getD r []) setters with
  | Except.error e => Except.error e
  | Except.ok d =>
    Except.ok (h,
      { sitesRef := r
        Vertices := d.Vertices
        CellVertices := d.CellVertices
        CellNeighbors := d.CellNeighbors
        CellOffsets := d.CellOffsets
        eps := d.eps })

/-- The centroid pass of `Relax` at the store level: the per-site writes
`d.Sites[i] = …` go through the `Sites` reference, i.e. into the caller's
array in the heap. -/
def relaxPassS (nrm : Vec3 → Vec3) (h : Heap) (dr : DiagramRef) : Option Heap :=
  (relaxPassInPlace nrm (diagOf h dr)).map (fun d1 => h.set dr.sitesRef d1.Sites)

/-- The iteration loop of `Relax` at the store level; the rebuild passes
`d.Sites` (the same heap slot) to `NewDiagram`, so the alias persists
across iterations. -/
def RelaxGoS (hull : List Vec3 → ℚ → List Nat) (nrm : Vec3 → Vec3) :
    Nat → Heap → DiagramRef → Option (Heap × DiagramRef × Option String)
  | 0, h, dr => some (h, dr, none)
  | k + 1, h, dr =>
    match relaxPassS nrm h dr with
    | none => none
    | some h1 =>
      match NewDiagramS hull nrm h1 dr.sitesRef [WithEps dr.eps] with
      | Except.error e => some (h1, dr, some e)
      | Except.ok (h2, dr2) => RelaxGoS hull nrm k h2 dr2

/-- `Diagram.Relax` at the store level. -/
def RelaxS (hull : List Vec3 → ℚ → List Nat) (nrm : Vec3 → Vec3) (h : Heap) (dr : DiagramRef)
    (steps : Int) : Option (Heap × DiagramRef × Option String) :=
  if steps < 0 then some (h, dr, some relaxErrMsg) else RelaxGoS hull nrm steps.toNat h dr

/-!
Concrete inputs used by witnesses and counterexamples.

`sitesDeg` is a fully degenerate site sequence (four copies of one point):
the hull provider's contract does not cover it, and the hull oracles below
return face lists that exercise the code paths under study.  On the runs
below every call to the normalization function receives the zero vector and
`r3.Vector.Normalize` maps the zero vector to itself, so instantiating the
abstract `nrm` with `id` agrees with the real library on every value that
occurs.
-/

/-- The point (1,0,0). -/
def p100 : Vec3 := ⟨1, 0, 0⟩

/-- Four copies of one point: a degenerate site sequence. -/
def sitesDeg : List Vec3 := List.replicate 4 p100

/-- A tetrahedron-shaped face list (as index triples, flattened). -/
def chTetra : List Nat := [0, 1, 2, 0, 2, 3, 0, 1, 3, 1, 2, 3]

/-- A hull oracle producing the tetrahedron face list. -/
def hullTetra : List Vec3 → ℚ → List Nat := fun _ _ => chTetra

/-- A face list of the right length whose fan around vertex 0 is
topologically inconsistent (no cyclic match exists at some position). -/
def chBad : List Nat := [0, 1, 2, 0, 2, 1, 0, 3, 3, 1, 2, 3]

/-- A hull oracle producing the inconsistent face list. -/
def hullBad : List Vec3 → ℚ → List Nat := fun _ _ => chBad

/-- A hull oracle that returns no faces at all, so the triangle-count check
of `NewTriangulation` fails. -/
def hullEmpty : List Vec3 → ℚ → List Nat := fun _ _ => []

/-- The diagram `NewDiagram hullTetra id sitesDeg []` evaluates to, with
`eps` set to 1, used as a concrete well-formed diagram. -/
def dgmLit : Diagram :=
  { Sites := sitesDeg
    Vertices := List.replicate 4 Vec3.zero
    CellVertices := [0, 1, 2, 0, 2, 3, 0, 1, 3, 1, 2, 3]
    CellNeighbors := [1, 2, 1, 2, 3, 2, 0, 3, 3, 0, 0, 1]
    CellOffsets := [0, 3, 6, 9, 12]
    eps := 1 }

/-- `dgmLit` after one in-place centroid pass (every centroid is the zero
vector on this degenerate input). -/
def d1Lit : Diagram := { dgmLit with Sites := List.replicate 4 Vec3.zero }

/-- The `DiagramRef` produced by `NewDiagramS hullTetra id [sitesDeg] 0 []`. -/
def drTetra : DiagramRef :=
  { sitesRef := 0
    Vertices := List.replicate 4 Vec3.zero
    CellVertices := [0, 1, 2, 0, 2, 3, 0, 1, 3, 1, 2, 3]
    CellNeighbors := [1, 2, 1, 2, 3, 2, 0, 3, 3, 0, 0, 1]
    CellOffsets := [0, 3, 6, 9, 12]
    eps := defaultEps }

/-- A triangle fan around vertex 0 (part of a tetrahedron), used as a
concrete incidence-ordering instance. -/
def trisFan : List Tri := [⟨0, 1, 2⟩, ⟨0, 2, 3⟩, ⟨0, 3, 1⟩]

/-- Decidable check of the cyclic CCW consistency property for a stored
incident-triangle list: `next(T_i, v) = prev(T_{(i+1) mod k}, v)` for every
position `i`, wrap-around included. -/
def chainHolds (v : Nat) (tris : List Tri) (l : List Nat) : Bool :=
  (List.range l.length).all (fun i =>
    decide (nextOf v tris (l.getD i 0) = prevOf v tris (l.getD ((i + 1) % l.length) 0)))

/-- The chain property of a fan tail: each successive element's `prev`
value matches its predecessor's `next` value, starting after `p`. -/
def fanChain (nf pf : Nat → Option Nat) : Nat → List Nat → Prop
  | _, [] => True
  | p, c :: cs => nf p = pf c ∧ fanChain nf pf c cs

/-- A list is a cyclic fan when the chain property holds along it and wraps
around from the last element back to the first.  This is the §4.2 contract
of the hull provider's output around one vertex: each incident triangle has
exactly one cyclic successor, and the fan closes into a single cycle. -/
def fanCyclic (nf pf : Nat → Option Nat) : List Nat → Prop
  | [] => True
  | f :: fs => fanChain nf pf f fs ∧ nf ((f :: fs).getLast (List.cons_ne_nil f fs)) = pf f

/-!
## Lemmas about the relaxation pass

`Cell.centroid` never reads `Sites`, which is the load-bearing fact behind
the snapshot equivalence of the in-place pass.
-/

lemma centroid_set_sites (nrm : Vec3 → Vec3) (d : Diagram) (s : List Vec3) (i : Nat) :
    Cell.centroid nrm { d with Sites := s } i = Cell.centroid nrm d i := rfl

lemma relaxPassOver_nil (nrm : Vec3 → Vec3) (d : Diagram) :
    relaxPassOver nrm [] d = some d := rfl

lemma relaxPassOver_cons (nrm : Vec3 → Vec3) (i : Nat) (ord : List Nat) (d : Diagram) :
    relaxPassOver nrm (i :: ord) d =
      match Cell.centroid nrm d i with
      | none => none
      | some c => relaxPassOver nrm ord { d with Sites := d.Sites.set i (nrm c) } := by
  cases h : Cell.centroid nrm d i <;>
    simp [relaxPassOver, List.foldlM_cons, h, Option.map]

lemma collectCentroids_none (nrm : Vec3 → Vec3) (d : Diagram) :
    ∀ (l : List Nat) (i : Nat), i ∈ l → Cell.centroid nrm d i = none →
      collectCentroids nrm d l = none := by
  intro l
  induction l with
  | nil => intro i hi; cases hi
  | cons a l ih =>
    intro i hi hnone
    rcases List.mem_cons.mp hi with h | h
    · subst h; simp [collectCentroids, hnone]
    · cases hc : Cell.centroid nrm d a <;> simp [collectCentroids, hc, ih i h hnone]

lemma collectCentroids_some (nrm : Vec3 → Vec3) (d : Diagram) :
    ∀ (l : List Nat), (∀ i ∈ l, (Cell.centroid nrm d i).isSome) →
      collectCentroids nrm d l
        = some (l.map (fun j => (Cell.centroid nrm d j).getD Vec3.zero)) := by
  intro l
  induction l with
  | nil => intro _; rfl
  | cons a l ih =>
    intro h
    obtain ⟨c, hc⟩ := Option.isSome_iff_exists.mp (h a (List.mem_cons_self a l))
    simp [collectCentroids, hc, ih (fun i hi => h i (List.mem_cons_of_mem a hi))]

lemma foldl_set_length (f : Nat → Vec3) :
    ∀ (ord : List Nat) (s : List Vec3),
      (ord.foldl (fun s' i => s'.set i (f i)) s).length = s.length := by
  intro ord
  induction ord with
  | nil => intro s; rfl
  | cons a ord ih => intro s; rw [List.foldl_cons, ih, List.length_set]

lemma foldl_set_getD (f : Nat → Vec3) :
    ∀ (ord : List Nat) (s : List Vec3), ord.Nodup →
      ∀ j, j < s.length →
        (ord.foldl (fun s' i => s'.set i (f i)) s).getD j Vec3.zero
          = if j ∈ ord then f j else s.getD j Vec3.zero := by
  intro ord
  induction ord with
  | nil => intro s _ j _; simp
  | cons a ord ih =>
    intro s hnd j hj
    have hnd' := (List.nodup_cons.mp hnd).2
    have hna := (List.nodup_cons.mp hnd).1
    rw [List.foldl_cons, ih (s.set a (f a)) hnd' j (by simpa using hj)]
    by_cases hjo : j ∈ ord
    · simp [hjo, List.mem_cons]
    · by_cases hja : j = a
      · subst hja
        simp [hjo, List.getD_eq_getElem?_getD, List.getElem?_set_self hj]
      · have hne : a ≠ j := fun h => hja h.symm
        simp [hjo, hja, List.getD_eq_getElem?_getD, List.getElem?_set_ne hne]

lemma relaxPassOver_all_some (nrm : Vec3 → Vec3) (d : Diagram) :
    ∀ (ord : List Nat), (∀ i ∈ ord, (Cell.centroid nrm d i).isSome) →
      ∀ (s : List Vec3),
        relaxPassOver nrm ord { d with Sites := s }
          = some { d with
              Sites := ord.foldl
                         (fun s' i => s'.set i (nrm ((Cell.centroid nrm d i).getD Vec3.zero))) s } := by
  intro ord
  induction ord with
  | nil => intro _ s; rfl
  | cons a ord ih =>
    intro h s
    obtain ⟨c, hc⟩ := Option.isSome_iff_exists.mp (h a (List.mem_cons_self a ord))
    rw [relaxPassOver_cons, centroid_set_sites, hc]
    have := ih (fun i hi => h i (List.mem_cons_of_mem a hi)) (s.set a (nrm c))
    simpa [hc] using this

lemma relaxPassOver_exists_none (nrm : Vec3 → Vec3) (d : Diagram) :
    ∀ (ord : List Nat) (i : Nat), i ∈ ord → Cell.centroid nrm d i = none →
      ∀ (s : List Vec3), relaxPassOver nrm ord { d with Sites := s } = none := by
  intro ord
  induction ord with
  | nil => intro i hi; cases hi
  | cons a ord ih =>
    intro i hi hnone s
    rw [relaxPassOver_cons, centroid_set_sites]
    rcases List.mem_cons.mp hi with h | h
    · subst h; rw [hnone]
    · cases hc : Cell.centroid nrm d a
      · rfl
      · exact ih i h hnone _

/-- The central helper: any processing order that is a permutation of
`0..NumCells-1` gives the in-place pass the same result as the
snapshot-based pass computed wholly against the pre-pass diagram. -/
lemma relaxPass_eq_snapshot (nrm : Vec3 → Vec3) (d : Diagram) (ord : List Nat)
    (hperm : ord.Perm (List.range (NumCells d))) :
    relaxPassOver nrm ord d = snapshotRelaxPass nrm d := by
  have heta : { d with Sites := d.Sites } = d := rfl
  by_cases hall : ∀ i ∈ ord, (Cell.centroid nrm d i).isSome
  · have hall' : ∀ i ∈ List.range (NumCells d), (Cell.centroid nrm d i).isSome :=
      fun i hi => hall i (hperm.mem_iff.mpr hi)
    have hsnap : snapshotRelaxPass nrm d
        = some { d with
            Sites := (List.range (NumCells d)).map
                       (fun j => nrm ((Cell.centroid nrm d j).getD Vec3.zero)) } := by
      unfold snapshotRelaxPass
      rw [collectCentroids_some nrm d _ hall']
      simp [List.map_map, Function.comp]
    have hfold := relaxPassOver_all_some nrm d ord hall d.Sites
    rw [heta] at hfold
    rw [hfold, hsnap]
    have hlen : d.Sites.length = NumCells d := rfl
    have hnd : ord.Nodup := hperm.symm.nodup (List.nodup_range _)
    have hlists :
        ord.foldl (fun s' i => s'.set i (nrm ((Cell.centroid nrm d i).getD Vec3.zero))) d.Sites
          = (List.range (NumCells d)).map
              (fun j => nrm ((Cell.centroid nrm d j).getD Vec3.zero)) := by
      apply List.ext_getElem
      · rw [foldl_set_length, hlen, List.length_map, List.length_range]
      · intro j h1 h2
        have hjN : j < NumCells d := by simpa using h2
        have hjs : j < d.Sites.length := by rw [hlen]; exact hjN
        have hg := foldl_set_getD (fun i => nrm ((Cell.centroid nrm d i).getD Vec3.zero))
          ord d.Sites hnd j hjs
        have hmem : j ∈ ord := hperm.mem_iff.mpr (List.mem_range.mpr hjN)
        rw [if_pos hmem] at hg
        calc _ = (ord.foldl (fun s' i => s'.set i
                  (nrm ((Cell.centroid nrm d i).getD Vec3.zero))) d.Sites).getD j Vec3.zero := by
                rw [List.getD_eq_getElem]
          _ = nrm ((Cell.centroid nrm d j).getD Vec3.zero) := hg
          _ = _ := by simp
    rw [hlists]
  · push_neg at hall
    obtain ⟨i, hi, hnone⟩ := hall
    have hnone' : Cell.centroid nrm d i = none := Option.not_isSome_iff_eq_none.mp hnone
    have hlhs := relaxPassOver_exists_none nrm d ord i hi hnone' d.Sites
    rw [heta] at hlhs
    rw [hlhs]
    unfold snapshotRelaxPass
    rw [collectCentroids_none nrm d _ i (hperm.mem_iff.mp hi) hnone']
    rfl

/-- Inversion for the snapshot pass: only `Sites` is replaced. -/
lemma snapshot_frame (nrm : Vec3 → Vec3) (d d1 : Diagram)
    (h : snapshotRelaxPass nrm d = some d1) :
    d1.Vertices = d.Vertices ∧ d1.CellVertices = d.CellVertices ∧
    d1.CellNeighbors = d.CellNeighbors ∧ d1.CellOffsets = d.CellOffsets ∧ d1.eps = d.eps := by
  unfold snapshotRelaxPass at h
  cases hm : collectCentroids nrm d (List.range (NumCells d)) with
  | none => rw [hm] at h; cases h
  | some cs =>
    rw [hm] at h
    simp only [Option.map_some'] at h
    cases h
    exact ⟨rfl, rfl, rfl, rfl, rfl⟩

/-!
## Counting lemmas for the CSR layout
-/

lemma countP_lt_zero (ch : List Nat) : ch.countP (fun x => decide (x < 0)) = 0 := by
  induction ch with
  | nil => rfl
  | cons a ch ih => simp [List.countP_cons, ih]

lemma countP_lt_succ (ch : List Nat) (k : Nat) :
    ch.countP (fun x => decide (x < k + 1))
      = ch.countP (fun x => decide (x < k)) + ch.countP (fun x => decide (x = k)) := by
  induction ch with
  | nil => rfl
  | cons a ch ih =>
    simp only [List.countP_cons, ih, decide_eq_true_eq]
    split_ifs <;> omega

lemma countP_lt_full (ch : List Nat) (n : Nat) (hall : ∀ x ∈ ch, x < n) :
    ch.countP (fun x => decide (x < n)) = ch.length := by
  rw [List.countP_eq_length]
  intro a ha
  exact decide_eq_true (hall a ha)

lemma countP_lt_mono (ch : List Nat) (k : Nat) :
    ch.countP (fun x => decide (x < k)) ≤ ch.countP (fun x => decide (x < k + 1)) := by
  rw [countP_lt_succ]
  omega

lemma sum_count_range (ch : List Nat) :
    ∀ n : Nat, ((List.range n).map (fun v => ch.countP (fun x => decide (x = v)))).sum
      = ch.countP (fun x => decide (x < n)) := by
  intro n
  induction n with
  | zero => simp [countP_lt_zero]
  | succ n ih => rw [List.range_succ, List.map_append, List.sum_append, ih, countP_lt_succ]; simp

lemma csrOffsets_length (ch : List Nat) (n : Nat) : (csrOffsets ch n).length = n + 1 := by
  simp [csrOffsets]

lemma csrOffsets_getD (ch : List Nat) (n k : Nat) (hk : k ≤ n) :
    (csrOffsets ch n).getD k 0 = ch.countP (fun x => decide (x < k)) := by
  have hk' : k < (csrOffsets ch n).length := by rw [csrOffsets_length]; omega
  rw [List.getD_eq_getElem _ _ hk']
  simp [csrOffsets]

/-!
## Length preservation through the scatter and ordering passes
-/

lemma scatter_aux_fst_length :
    ∀ (l : List (Nat × Nat)) (acc : List Nat × List Nat),
      ((l.foldl
          (fun acc pv =>
            (acc.1.set (acc.2.getD pv.2 0) (pv.1 / 3), acc.2.set pv.2 (acc.2.getD pv.2 0 + 1)))
          acc).1).length = acc.1.length := by
  intro l
  induction l with
  | nil => intro acc; rfl
  | cons p l ih => intro acc; rw [List.foldl_cons, ih]; simp [List.length_set]

lemma scatterIncidents_length (ch offsets : List Nat) (n : Nat) :
    (scatterIncidents ch offsets n).length = ch.length := by
  unfold scatterIncidents
  rw [scatter_aux_fst_length]
  simp

lemma chainSortAux_length (nf pf : Nat → Option Nat) :
    ∀ (fuel p : Nat) (l : List Nat), (chainSortAux nf pf fuel p l).length = l.length := by
  intro fuel
  induction fuel with
  | zero => intro p l; rfl
  | succ fuel ih =>
    intro p l
    cases l with
    | nil => rfl
    | cons h t =>
      cases hm : findMatch pf (nf p) t with
      | none => simp [chainSortAux, hm, ih]
      | some j => simp [chainSortAux, hm, ih, List.length_set]

lemma sortIncident_length (v : Nat) (tris : List Tri) (inc : List Nat) :
    (sortIncidentTriangleIndicesCCW v tris inc).length = inc.length := by
  cases inc with
  | nil => rfl
  | cons h t => simp [sortIncidentTriangleIndicesCCW, chainSortAux_length]

lemma region_length (ch : List Nat) (n : Nat) (v : Nat) (hv : v < n)
    (L : List Nat) (hL : L.length = ch.length) :
    ((L.drop ((csrOffsets ch n).getD v 0)).take
        ((csrOffsets ch n).getD (v + 1) 0 - (csrOffsets ch n).getD v 0)).length
      = ch.countP (fun x => decide (x = v)) := by
  rw [csrOffsets_getD ch n v (by omega), csrOffsets_getD ch n (v + 1) (by omega)]
  have hsucc := countP_lt_succ ch v
  have hle : ch.countP (fun x => decide (x < v + 1)) ≤ ch.length := List.countP_le_length _
  simp only [List.length_take, List.length_drop, hL]
  omega

lemma sortAllIncidents_length (ch : List Nat) (n : Nat) (hall : ∀ x ∈ ch, x < n)
    (tris : List Tri) (L : List Nat) (hL : L.length = ch.length) :
    (sortAllIncidents n tris L (csrOffsets ch n)).length = ch.length := by
  unfold sortAllIncidents
  rw [List.length_flatten, List.map_map]
  have hmap : ∀ v ∈ List.range n,
      (List.length ∘ fun v =>
        sortIncidentTriangleIndicesCCW v tris
          ((L.drop ((csrOffsets ch n).getD v 0)).take
            ((csrOffsets ch n).getD (v + 1) 0 - (csrOffsets ch n).getD v 0))) v
        = ch.countP (fun x => decide (x = v)) := by
    intro v hv
    simp only [Function.comp]
    rw [sortIncident_length, region_length ch n v (List.mem_range.mp hv) L hL]
  rw [List.map_congr_left hmap, sum_count_range, countP_lt_full ch n hall]

/-!
## Bounds on the stored vertex indices, and inversion of construction
-/

lemma NextVertex_bound (t : Tri) (v n w : Nat) (h0 : t.v0 < n) (h1 : t.v1 < n) (h2 : t.v2 < n)
    (h : NextVertex t v = some w) : w < n := by
  unfold NextVertex at h
  split_ifs at h <;> (cases h; omega)

lemma chGetD_bound (ch : List Nat) (n p : Nat) (hall : ∀ x ∈ ch, x < n) (hn : 0 < n) :
    ch.getD p 0 < n := by
  by_cases hp : p < ch.length
  · rw [List.getD_eq_getElem _ _ hp]
    exact hall _ (List.getElem_mem hp)
  · rw [List.getD_eq_default _ _ (by omega)]
    exact hn

lemma sortTriangleVerticesCCW_bound (vertices : List Vec3) (t : Tri) (n : Nat)
    (h0 : t.v0 < n) (h1 : t.v1 < n) (h2 : t.v2 < n) :
    (sortTriangleVerticesCCW vertices t).v0 < n ∧
    (sortTriangleVerticesCCW vertices t).v1 < n ∧
    (sortTriangleVerticesCCW vertices t).v2 < n := by
  unfold sortTriangleVerticesCCW
  dsimp only
  split_ifs
  · exact ⟨h0, h2, h1⟩
  · exact ⟨h0, h1, h2⟩

lemma trianglesOf_bound (vertices : List Vec3) (ch : List Nat) (m n : Nat)
    (hall : ∀ x ∈ ch, x < n) (hn : 0 < n) :
    ∀ tr ∈ trianglesOf vertices ch m, tr.v0 < n ∧ tr.v1 < n ∧ tr.v2 < n := by
  intro tr htr
  obtain ⟨i, _, hi⟩ := List.mem_map.mp htr
  subst hi
  exact sortTriangleVerticesCCW_bound vertices _ n (chGetD_bound ch n _ hall hn)
    (chGetD_bound ch n _ hall hn) (chGetD_bound ch n _ hall hn)

lemma triGetD_bound (tris : List Tri) (n j : Nat)
    (htris : ∀ tr ∈ tris, tr.v0 < n ∧ tr.v1 < n ∧ tr.v2 < n) (hn : 0 < n) :
    (tris.getD j ⟨0, 0, 0⟩).v0 < n ∧ (tris.getD j ⟨0, 0, 0⟩).v1 < n ∧
    (tris.getD j ⟨0, 0, 0⟩).v2 < n := by
  by_cases hj : j < tris.length
  · rw [List.getD_eq_getElem _ _ hj]
    exact htris _ (List.getElem_mem hj)
  · rw [List.getD_eq_default _ _ (by omega)]
    exact ⟨hn, hn, hn⟩

lemma buildNeighbors_inner_inv (tris : List Tri) (n v off : Nat) (hn : 0 < n)
    (htris : ∀ tr ∈ tris, tr.v0 < n ∧ tr.v1 < n ∧ tr.v2 < n) :
    ∀ (it : List (Nat × Nat)) (acc : List Nat), (∀ x ∈ acc, x < n) →
      ∀ res,
        it.foldlM
            (fun acc2 pt =>
              (NextVertex (tris.getD pt.2 ⟨0, 0, 0⟩) v).map (fun w => acc2.set (off + pt.1) w))
            acc = some res →
          res.length = acc.length ∧ ∀ x ∈ res, x < n := by
  intro it
  induction it with
  | nil =>
    intro acc hacc res hres
    cases hres
    exact ⟨rfl, hacc⟩
  | cons pt it ih =>
    intro acc hacc res hres
    rw [List.foldlM_cons] at hres
    cases hw : NextVertex (tris.getD pt.2 ⟨0, 0, 0⟩) v with
    | none => rw [hw] at hres; cases hres
    | some w =>
      rw [hw] at hres
      simp only [Option.map_some', Option.some_bind] at hres
      obtain ⟨ht0, ht1, ht2⟩ := triGetD_bound tris n pt.2 htris hn
      have hw' : w < n := NextVertex_bound _ v n w ht0 ht1 ht2 hw
      have hacc' : ∀ x ∈ acc.set (off + pt.1) w, x < n := by
        intro x hx
        rcases List.mem_or_eq_of_mem_set hx with h | h
        · exact hacc x h
        · omega
      obtain ⟨hlen, hmem⟩ := ih (acc.set (off + pt.1) w) hacc' res hres
      exact ⟨by rw [hlen, List.length_set], hmem⟩

lemma buildNeighbors_inv (n : Nat) (tris : List Tri) (sorted offsets : List Nat) (hn : 0 < n)
    (htris : ∀ tr ∈ tris, tr.v0 < n ∧ tr.v1 < n ∧ tr.v2 < n) (l : List Nat)
    (h : buildNeighbors n tris sorted offsets = some l) :
    l.length = sorted.length ∧ ∀ x ∈ l, x < n := by
  unfold buildNeighbors at h
  suffices haux : ∀ (vs : List Nat) (acc : List Nat), (∀ x ∈ acc, x < n) →
      ∀ res,
        vs.foldlM
            (fun acc v =>
              ((sorted.drop (offsets.getD v 0)).take
                  (offsets.getD (v + 1) 0 - offsets.getD v 0)).enum.foldlM
                (fun acc2 pt =>
                  (NextVertex (tris.getD pt.2 ⟨0, 0, 0⟩) v).map
                    (fun w => acc2.set (offsets.getD v 0 + pt.1) w))
                acc)
            acc = some res →
          res.length = acc.length ∧ ∀ x ∈ res, x < n by
    have := haux (List.range n) (List.replicate sorted.length 0)
      (by intro x hx; rw [List.eq_of_mem_replicate hx]; exact hn) l h
    simpa using this
  intro vs
  induction vs with
  | nil =>
    intro acc hacc res hres
    cases hres
    exact ⟨rfl, hacc⟩
  | cons v vs ih =>
    intro acc hacc res hres
    rw [List.foldlM_cons] at hres
    cases hstep : ((sorted.drop (offsets.getD v 0)).take
        (offsets.getD (v + 1) 0 - offsets.getD v 0)).enum.foldlM
          (fun acc2 pt =>
            (NextVertex (tris.getD pt.2 ⟨0, 0, 0⟩) v).map
              (fun w => acc2.set (offsets.getD v 0 + pt.1) w))
          acc with
    | none => rw [hstep] at hres; cases hres
    | some acc1 =>
      rw [hstep] at hres
      obtain ⟨hlen1, hmem1⟩ := buildNeighbors_inner_inv tris n v (offsets.getD v 0) hn htris
        _ acc hacc acc1 hstep
      obtain ⟨hlen2, hmem2⟩ := ih acc1 hmem1 res hres
      exact ⟨by rw [hlen2, hlen1], hmem2⟩

/-- Inversion of `NewTriangulation`: a successful construction pins down
every field of the result and records the checks that passed. -/
lemma NewTriangulation_ok (hull : List Vec3 → ℚ → List Nat) (vertices : List Vec3)
    (setters : List (ℚ → Except String ℚ)) (t : Triangulation)
    (h : NewTriangulation hull vertices setters = Except.ok t) :
    ∃ eps, applyOptions defaultEps setters = Except.ok eps ∧
      4 ≤ vertices.length ∧
      (hull vertices eps).length = 2 * (vertices.length - 2) * 3 ∧
      (∀ x ∈ hull vertices eps, x < vertices.length) ∧
      t = { Vertices := vertices
            Triangles := trianglesOf vertices (hull vertices eps) (2 * (vertices.length - 2))
            IncidentTriangleIndices :=
              sortAllIncidents vertices.length
                (trianglesOf vertices (hull vertices eps) (2 * (vertices.length - 2)))
                (scatterIncidents (hull vertices eps)
                  (csrOffsets (hull vertices eps) vertices.length) vertices.length)
                (csrOffsets (hull vertices eps) vertices.length)
            IncidentTriangleOffsets := csrOffsets (hull vertices eps) vertices.length } := by
  unfold NewTriangulation at h
  split at h
  · cases h
  next eps happ =>
    refine ⟨eps, happ, ?_⟩
    split at h
    · cases h
    next h4 =>
      dsimp only at h
      split at h
      · cases h
      next hlen =>
        split at h
        · cases h
        next hany =>
          cases h
          refine ⟨by omega, by omega, ?_, rfl⟩
          intro x hx
          have := List.any_eq_false.mp (Bool.eq_false_iff.mpr hany) x hx
          simp only [decide_eq_true_eq] at this
          omega

/-- Inversion of `NewDiagram`: a successful construction pins down every
field of the result. -/
lemma NewDiagram_ok (hull : List Vec3 → ℚ → List Nat) (nrm : Vec3 → Vec3) (sites : List Vec3)
    (setters : List (ℚ → Except String ℚ)) (d : Diagram)
    (h : NewDiagram hull nrm sites setters = Except.ok d) :
    ∃ eps dt nbrs,
      applyOptions defaultEps setters = Except.ok eps ∧
      4 ≤ sites.length ∧
      NewTriangulation hull sites [WithEps eps] = Except.ok dt ∧
      buildNeighbors sites.length dt.Triangles dt.IncidentTriangleIndices
        dt.IncidentTriangleOffsets = some nbrs ∧
      d = { Sites := dt.Vertices
            Vertices := dt.Triangles.map (fun t =>
              nrm (triangleCircumcenter (dt.Vertices.getD t.v0 Vec3.zero)
                (dt.Vertices.getD t.v1 Vec3.zero) (dt.Vertices.getD t.v2 Vec3.zero)))
            CellVertices := dt.IncidentTriangleIndices
            CellNeighbors := nbrs
            CellOffsets := dt.IncidentTriangleOffsets
            eps := eps } := by
  unfold NewDiagram at h
  split at h
  · cases h
  next h4 =>
    split at h
    · cases h
    next eps happ =>
      split at h
      · cases h
      next dt htr =>
        split at h
        · cases h
        next nbrs hnb =>
          cases h
          exact ⟨eps, dt, nbrs, happ, by omega, htr, hnb, rfl⟩

/-- Well-formedness facts of every successfully constructed diagram,
bundled for reuse: the CSR arrays come from the hull's face list `ch`, all
stored neighbor indices are in range, and the array lengths are determined
by the site count. -/
lemma NewDiagram_wf (hull : List Vec3 → ℚ → List Nat) (nrm : Vec3 → Vec3) (sites : List Vec3)
    (setters : List (ℚ → Except String ℚ)) (d : Diagram)
    (h : NewDiagram hull nrm sites setters = Except.ok d) :
    ∃ (ch : List Nat) (dt : Triangulation),
      NewTriangulation hull sites [WithEps d.eps] = Except.ok dt ∧
      dt.Triangles.length = 2 * (sites.length - 2) ∧
      d.Sites = sites ∧
      4 ≤ sites.length ∧
      ch.length = 2 * (sites.length - 2) * 3 ∧
      (∀ x ∈ ch, x < sites.length) ∧
      d.CellOffsets = csrOffsets ch sites.length ∧
      d.CellVertices.length = ch.length ∧
      d.CellNeighbors.length = ch.length ∧
      (∀ x ∈ d.CellNeighbors, x < sites.length) ∧
      d.Vertices.length = 2 * (sites.length - 2) := by
  obtain ⟨eps, dt, nbrs, happ, h4, htr, hnb, hd⟩ := NewDiagram_ok hull nrm sites setters d h
  obtain ⟨ε, happ2, h4', hchlen, hall, hteq⟩ := NewTriangulation_ok hull sites [WithEps eps] dt htr
  have hdeps : d.eps = eps := by rw [hd]
  have htris : ∀ tr ∈ dt.Triangles, tr.v0 < sites.length ∧ tr.v1 < sites.length ∧
      tr.v2 < sites.length := by
    rw [hteq]
    exact trianglesOf_bound sites (hull sites ε) _ sites.length hall (by omega)
  obtain ⟨hnblen, hnbmem⟩ := buildNeighbors_inv sites.length dt.Triangles
    dt.IncidentTriangleIndices dt.IncidentTriangleOffsets (by omega) htris nbrs hnb
  have hscat : (scatterIncidents (hull sites ε)
      (csrOffsets (hull sites ε) sites.length) sites.length).length
      = (hull sites ε).length := scatterIncidents_length _ _ _
  have hindlen : dt.IncidentTriangleIndices.length = (hull sites ε).length := by
    rw [hteq]
    exact sortAllIncidents_length (hull sites ε) sites.length hall _ _ hscat
  refine ⟨hull sites ε, dt, by rw [hdeps]; exact htr, ?_, ?_, h4, hchlen, hall, ?_, ?_, ?_, ?_, ?_⟩
  · rw [hteq]; simp [trianglesOf]
  · rw [hd, hteq]
  · rw [hd, hteq]
  · rw [hd]; exact hindlen
  · rw [hd]; dsimp only; rw [hnblen]; exact hindlen
  · rw [hd]; exact hnbmem
  · rw [hd, hteq]; simp [trianglesOf]

/-- C9: every successfully constructed diagram satisfies CSR
well-formedness: `CellOffsets` has length `N+1`, starts at 0, is
non-decreasing, and its last entry equals both `CellVertices.length` and
`CellNeighbors.length`; consequently every cell's slice bounds
`[offsets[i], offsets[i+1])` stay within the value arrays. -/
theorem spec_c9 (hull : List Vec3 → ℚ → List Nat) (nrm : Vec3 → Vec3) (sites : List Vec3)
    (setters : List (ℚ → Except String ℚ)) (d : Diagram)
    (h : NewDiagram hull nrm sites setters = Except.ok d) :
    d.CellOffsets.length = sites.length + 1 ∧
    d.CellOffsets.getD 0 0 = 0 ∧
    (∀ i, i < sites.length → d.CellOffsets.getD i 0 ≤ d.CellOffsets.getD (i + 1) 0) ∧
    d.CellOffsets.getD sites.length 0 = d.CellVertices.length ∧
    d.CellVertices.length = d.CellNeighbors.length ∧
    (∀ i, i < sites.length → d.CellOffsets.getD (i + 1) 0 ≤ d.CellVertices.length) := by
  obtain ⟨ch, dt, _, _, _, h4, hchlen, hall, hoff, hcvlen, hcnlen, _, _⟩ :=
    NewDiagram_wf hull nrm sites setters d h
  rw [hoff, hcvlen, hcnlen]
  refine ⟨csrOffsets_length ch sites.length, ?_, ?_, ?_, rfl, ?_⟩
  · rw [csrOffsets_getD ch sites.length 0 (by omega), countP_lt_zero]
  · intro i hi
    rw [csrOffsets_getD ch sites.length i (by omega),
      csrOffsets_getD ch sites.length (i + 1) (by omega)]
    exact countP_lt_mono ch i
  · rw [csrOffsets_getD ch sites.length sites.length (by omega), countP_lt_full ch _ hall]
  · intro i hi
    rw [csrOffsets_getD ch sites.length (i + 1) (by omega)]
    exact List.countP_le_length _

/-- Witness for C9 at a concrete successful construction. -/
theorem spec_c9_witness :
    dgmLit.CellOffsets.length = sitesDeg.length + 1 ∧
    dgmLit.CellOffsets.getD 0 0 = 0 ∧
    (∀ i, i < sitesDeg.length →
      dgmLit.CellOffsets.getD i 0 ≤ dgmLit.CellOffsets.getD (i + 1) 0) ∧
    dgmLit.CellOffsets.getD sitesDeg.length 0 = dgmLit.CellVertices.length ∧
    dgmLit.CellVertices.length = dgmLit.CellNeighbors.length ∧
    (∀ i, i < sitesDeg.length →
      dgmLit.CellOffsets.getD (i + 1) 0 ≤ dgmLit.CellVertices.length) :=
  spec_c9 hullTetra id sitesDeg [WithEps 1] dgmLit (by with_unfolding_all rfl)

/-- C1: for every site sequence from which construction succeeds, the
triangulation has exactly `2N-4` triangles, the diagram has exactly `2N-4`
Voronoi vertices (one per triangle), and the sum over all cells of their
vertex counts — which is the length of the `CellVertices` array — equals
`3 * (2N-4)`. -/
theorem spec_c1 (hull : List Vec3 → ℚ → List Nat) (nrm : Vec3 → Vec3) (sites : List Vec3)
    (setters : List (ℚ → Except String ℚ)) (d : Diagram)
    (h : NewDiagram hull nrm sites setters = Except.ok d) :
    (∀ t, NewTriangulation hull sites [WithEps d.eps] = Except.ok t →
      t.Triangles.length = 2 * sites.length - 4) ∧
    d.Vertices.length = 2 * sites.length - 4 ∧
    d.CellVertices.length = 3 * (2 * sites.length - 4) ∧
    ((List.range (NumCells d)).map (fun i => Cell.numVertices d i)).sum
      = 3 * (2 * sites.length - 4) := by
  obtain ⟨ch, dt, htr, htlen, hsites, h4, hchlen, hall, hoff, hcvlen, _, _, hvlen⟩ :=
    NewDiagram_wf hull nrm sites setters d h
  have hN : NumCells d = sites.length := by unfold NumCells; rw [hsites]
  refine ⟨?_, by omega, by omega, ?_⟩
  · intro t ht
    rw [htr] at ht
    cases ht
    omega
  · have hnum : ∀ i ∈ List.range (NumCells d),
        Cell.numVertices d i = ch.countP (fun x => decide (x = i)) := by
      intro i hi
      have hi' : i < sites.length := by rw [← hN]; exact List.mem_range.mp hi
      unfold Cell.numVertices
      rw [hoff, csrOffsets_getD ch sites.length i (by omega),
        csrOffsets_getD ch sites.length (i + 1) (by omega)]
      have := countP_lt_succ ch i
      omega
    rw [List.map_congr_left hnum, hN, sum_count_range, countP_lt_full ch _ hall]
    omega

/-- Witness for C1 at a concrete successful construction. -/
theorem spec_c1_witness :
    (∀ t, NewTriangulation hullTetra sitesDeg [WithEps dgmLit.eps] = Except.ok t →
      t.Triangles.length = 2 * sitesDeg.length - 4) ∧
    dgmLit.Vertices.length = 2 * sitesDeg.length - 4 ∧
    dgmLit.CellVertices.length = 3 * (2 * sitesDeg.length - 4) ∧
    ((List.range (NumCells dgmLit)).map (fun i => Cell.numVertices dgmLit i)).sum
      = 3 * (2 * sitesDeg.length - 4) :=
  spec_c1 hullTetra id sitesDeg [WithEps 1] dgmLit (by with_unfolding_all rfl)

/-- C8: for every cell of a constructed diagram, the single-element
accessors `Cell.Vertex` and `Cell.Neighbor` return a recoverable error
carrying the offending index and the valid range exactly when
`i < 0 ∨ i ≥ NumVertices`, and for every in-range `i` they succeed and
return the element at local position `i` — no clamping. -/
theorem spec_c8 (hull : List Vec3 → ℚ → List Nat) (nrm : Vec3 → Vec3) (sites : List Vec3)
    (setters : List (ℚ → Except String ℚ)) (d : Diagram)
    (h : NewDiagram hull nrm sites setters = Except.ok d) (c : Nat)
    (_hc : c < NumCells d) (i : Int) :
    ((i < 0 ∨ (Cell.numVertices d c : Int) ≤ i) →
      Cell.vertex d c i = Except.error (CellErr.outOfRange "Vertex" i (Cell.numVertices d c)) ∧
      Cell.neighbor d c i
        = Except.error (CellErr.outOfRange "Neighbor" i (Cell.numVertices d c))) ∧
    (0 ≤ i → i < (Cell.numVertices d c : Int) →
      Cell.vertex d c i = Except.ok
        (d.Vertices.getD (d.CellVertices.getD (d.CellOffsets.getD c 0 + i.toNat) 0) Vec3.zero) ∧
      Cell.neighbor d c i = Except.ok
        (d.CellNeighbors.getD (d.CellOffsets.getD c 0 + i.toNat) 0)) := by
  obtain ⟨ch, dt, _, _, hsites, h4, _, _, _, _, _, hnbmem, _⟩ :=
    NewDiagram_wf hull nrm sites setters d h
  constructor
  · intro hcond
    constructor
    · unfold Cell.vertex
      dsimp only
      split_ifs with hx
      · rfl
      · exact absurd hcond hx
    · unfold Cell.neighbor
      dsimp only
      split_ifs with hx
      · rfl
      · exact absurd hcond hx
  · intro h0 hlt
    have hcond : ¬(i < 0 ∨ ((d.CellOffsets.getD (c + 1) 0 - d.CellOffsets.getD c 0 : Nat) : Int) ≤ i) := by
      have hnv : Cell.numVertices d c = d.CellOffsets.getD (c + 1) 0 - d.CellOffsets.getD c 0 := rfl
      rw [hnv] at hlt
      omega
    constructor
    · unfold Cell.vertex
      dsimp only
      rw [if_neg hcond]
    · unfold Cell.neighbor
      dsimp only
      rw [if_neg hcond]
      have hnbr : d.CellNeighbors.getD (d.CellOffsets.getD c 0 + i.toNat) 0 < sites.length :=
        chGetD_bound d.CellNeighbors sites.length _ hnbmem (by omega)
      unfold Diagram.cell
      split_ifs with hy
      · exfalso
        rw [hsites] at hy
        omega
      · simp

/-- Witness for C8 at a concrete constructed diagram: cell 1, out-of-range
index 5 and in-range index 2. -/
theorem spec_c8_witness :
    (Cell.vertex dgmLit 1 5
        = Except.error (CellErr.outOfRange "Vertex" 5 (Cell.numVertices dgmLit 1)) ∧
      Cell.neighbor dgmLit 1 5
        = Except.error (CellErr.outOfRange "Neighbor" 5 (Cell.numVertices dgmLit 1))) ∧
    (Cell.vertex dgmLit 1 2 = Except.ok
        (dgmLit.Vertices.getD
          (dgmLit.CellVertices.getD (dgmLit.CellOffsets.getD 1 0 + (2 : Int).toNat) 0) Vec3.zero) ∧
      Cell.neighbor dgmLit 1 2 = Except.ok
        (dgmLit.CellNeighbors.getD (dgmLit.CellOffsets.getD 1 0 + (2 : Int).toNat) 0)) :=
  have h : NewDiagram hullTetra id sitesDeg [WithEps 1] = Except.ok dgmLit := by
    with_unfolding_all rfl
  ⟨(spec_c8 hullTetra id sitesDeg [WithEps 1] dgmLit h 1
      (of_decide_eq_true (by with_unfolding_all rfl)) 5).1
    (Or.inr (of_decide_eq_true (by with_unfolding_all rfl))),
   (spec_c8 hullTetra id sitesDeg [WithEps 1] dgmLit h 1
      (of_decide_eq_true (by with_unfolding_all rfl)) 2).2
    (of_decide_eq_true (by with_unfolding_all rfl))
    (of_decide_eq_true (by with_unfolding_all rfl))⟩

/-- C5: In every single relaxation pass of `Relax`, the new position written
for each site equals the spherical centroid of that site's cell in the
pre-relaxation diagram (as it was at the start of the pass): the per-site
in-place update loop produces exactly the same site positions as a
snapshot-based pass, and the result is independent of the order in which
the sites are processed.  (This holds because `Cell.centroid` reads only
`Vertices`, `CellVertices` and `CellOffsets`, never `Sites`.) -/
theorem spec_c5 (nrm : Vec3 → Vec3) (d : Diagram) :
    relaxPassInPlace nrm d = snapshotRelaxPass nrm d ∧
    ∀ ord : List Nat, ord.Perm (List.range (NumCells d)) →
      relaxPassOver nrm ord d = snapshotRelaxPass nrm d := by
  constructor
  · unfold relaxPassInPlace
    exact relaxPass_eq_snapshot nrm d _ (List.Perm.refl _)
  · exact fun ord h => relaxPass_eq_snapshot nrm d ord h

/-- Witness for C5 at a concrete diagram, with the scrambled processing
order `[3, 1, 0, 2]`. -/
theorem spec_c5_witness :
    relaxPassInPlace id dgmLit = snapshotRelaxPass id dgmLit ∧
    relaxPassOver id [3, 1, 0, 2] dgmLit = snapshotRelaxPass id dgmLit :=
  ⟨(spec_c5 id dgmLit).1,
   (spec_c5 id dgmLit).2 [3, 1, 0, 2] (of_decide_eq_true (by with_unfolding_all rfl))⟩

/-- C7: configuration errors are rejected before any geometric computation:
for `eps ≤ 0`, construction with `WithEps eps` returns an error and its
result does not depend on the hull oracle at all (so no hull computation is
consulted); for `steps < 0`, `Relax` returns its error immediately with the
diagram returned completely unchanged. -/
theorem spec_c7 (hull hull' : List Vec3 → ℚ → List Nat) (nrm : Vec3 → Vec3)
    (sites : List Vec3) (eps : ℚ) (heps : eps ≤ 0)
    (d : Diagram) (steps : Int) (hsteps : steps < 0) :
    (∃ e, NewDiagram hull nrm sites [WithEps eps] = Except.error e) ∧
    NewDiagram hull nrm sites [WithEps eps] = NewDiagram hull' nrm sites [WithEps eps] ∧
    Relax hull nrm d steps = some (d, some relaxErrMsg) := by
  have happ : applyOptions defaultEps [WithEps eps]
      = Except.error "WithEps: eps must be positive" := by
    simp [applyOptions, WithEps, if_pos heps]
  refine ⟨?_, ?_, ?_⟩
  · by_cases hlen : sites.length < 4
    · exact ⟨"NewDiagram: insufficient sites for diagram, minimum 4 required",
        by simp [NewDiagram, hlen]⟩
    · exact ⟨"WithEps: eps must be positive", by simp [NewDiagram, hlen, happ]⟩
  · by_cases hlen : sites.length < 4 <;> simp [NewDiagram, hlen, happ]
  · simp [Relax, if_pos hsteps]

/-- Witness for C7 at `eps = -1` and `steps = -1`, with two different hull
oracles. -/
theorem spec_c7_witness :
    (∃ e, NewDiagram hullTetra id sitesDeg [WithEps (-1)] = Except.error e) ∧
    NewDiagram hullTetra id sitesDeg [WithEps (-1)]
      = NewDiagram hullEmpty id sitesDeg [WithEps (-1)] ∧
    Relax hullTetra id dgmLit (-1) = some (dgmLit, some relaxErrMsg) :=
  spec_c7 hullTetra hullEmpty id sitesDeg (-1) (by norm_num) dgmLit (-1) (by norm_num)

/-- C6 (amended): `NewDiagram` itself never writes to the caller-supplied
site array — the heap is returned unchanged — but it does not copy it
either: the returned diagram's `Sites` aliases the caller's array
(`sitesRef = r`), through which a later `Relax` writes. -/
theorem spec_c6 (hull : List Vec3 → ℚ → List Nat) (nrm : Vec3 → Vec3) (h : Heap) (r : Nat)
    (setters : List (ℚ → Except String ℚ)) (res : Heap × DiagramRef)
    (hok : NewDiagramS hull nrm h r setters = Except.ok res) :
    res.1 = h ∧ res.2.sitesRef = r := by
  unfold NewDiagramS at hok
  cases hm : NewDiagram hull nrm (h.getD r []) setters with
  | error e => rw [hm] at hok; cases hok
  | ok dd => rw [hm] at hok; cases hok; exact ⟨rfl, rfl⟩

/-- Witness for C6 (amended) at a concrete input. -/
theorem spec_c6_witness :
    (([sitesDeg] : Heap), drTetra).1 = [sitesDeg] ∧
    (([sitesDeg] : Heap), drTetra).2.sitesRef = 0 :=
  spec_c6 hullTetra id [sitesDeg] 0 [] ([sitesDeg], drTetra) (by with_unfolding_all rfl)

/-- C6 counterexample: the claim "neither NewDiagram nor any subsequent
Relax call on the returned Diagram modifies the caller-supplied site
sequence" is false.  At this concrete input, construction succeeds with the
diagram's `Sites` aliasing the caller's array (heap slot 0), and one
`Relax` step overwrites that array with the relaxed positions — the
caller-supplied sequence `sitesDeg` is replaced by four zero vectors.  On
this run every call of the normalization function receives the zero vector,
on which `id` agrees with `r3.Vector.Normalize`. -/
theorem spec_c6_cex :
    (NewDiagramS hullTetra id [sitesDeg] 0 []).toOption.map (fun hd => (hd.1, hd.2.sitesRef))
      = some ([sitesDeg], 0) ∧
    ((NewDiagramS hullTetra id [sitesDeg] 0 []).toOption.bind
        (fun hd => RelaxS hullTetra id hd.1 hd.2 1)).map (fun res => res.1.getD 0 [])
      = some (List.replicate 4 Vec3.zero) ∧
    List.replicate 4 Vec3.zero ≠ sitesDeg := by
  refine ⟨by with_unfolding_all rfl, by with_unfolding_all rfl, ?_⟩
  intro hcontra
  have h0 : Vec3.zero = p100 := by
    have := congrArg (fun l => List.getD l 0 Vec3.zero) hcontra
    simpa [sitesDeg] using this
  have : (0 : ℚ) = 1 := congrArg Vec3.x h0
  norm_num at this

/-- C10: `Relax` is not atomic across a failing iteration — if the rebuild
inside an iteration fails, `Relax` returns that error and the diagram is in
a mixed state: `Sites` already holds the centroids of the pre-iteration
diagram (the snapshot pass result) while `Vertices`, `CellVertices`,
`CellNeighbors` and `CellOffsets` are unchanged from before the iteration;
no rollback happens.  (Stated for the iteration in which the failure
occurs; later iterations start from a rebuilt diagram, to which the same
statement applies.) -/
theorem spec_c10 (hull : List Vec3 → ℚ → List Nat) (nrm : Vec3 → Vec3) (d d1 : Diagram)
    (e : String) (hpass : relaxPassInPlace nrm d = some d1)
    (hfail : NewDiagram hull nrm d1.Sites [WithEps d1.eps] = Except.error e) :
    (∀ s : Int, 1 ≤ s → Relax hull nrm d s = some (d1, some e)) ∧
    snapshotRelaxPass nrm d = some d1 ∧
    d1.Vertices = d.Vertices ∧ d1.CellVertices = d.CellVertices ∧
    d1.CellNeighbors = d.CellNeighbors ∧ d1.CellOffsets = d.CellOffsets ∧ d1.eps = d.eps := by
  have hsnap : snapshotRelaxPass nrm d = some d1 := by
    rw [← relaxPass_eq_snapshot nrm d _ (List.Perm.refl _)]
    exact hpass
  obtain ⟨h1, h2, h3, h4, h5⟩ := snapshot_frame nrm d d1 hsnap
  refine ⟨?_, hsnap, h1, h2, h3, h4, h5⟩
  intro s hs
  unfold Relax
  rw [if_neg (by omega)]
  have hm : s.toNat = (s.toNat - 1) + 1 := by omega
  rw [hm]
  simp [RelaxGo, hpass, hfail]

/-- Witness for C10: a concrete diagram whose rebuild fails because the
hull oracle returns no faces; two requested steps fail in the first
iteration. -/
theorem spec_c10_witness :
    Relax hullEmpty id dgmLit 2
      = some (d1Lit, some "NewTriangulation: inconsistent number of indices returned from QuickHull") ∧
    snapshotRelaxPass id dgmLit = some d1Lit ∧
    d1Lit.Vertices = dgmLit.Vertices :=
  have h := spec_c10 hullEmpty id dgmLit d1Lit
    "NewTriangulation: inconsistent number of indices returned from QuickHull"
    (by with_unfolding_all rfl) (by with_unfolding_all rfl)
  ⟨h.1 2 (by norm_num), h.2.1, h.2.2.1⟩

/-- C3 (code refutation): a degenerate (zero-area) triangle from the hull
produces the zero vector as its circumcenter; `NewDiagram` normalizes it
without any guard and stores the result, returning success — no error and
no designated sentinel, for every normalization function.  With the real
`r3.Vector.Normalize`, which maps the zero vector to the zero vector, the
stored Voronoi "vertex" is the zero vector — a garbage point that does not
lie on the sphere — and the construction still reports success. -/
theorem spec_c3_eval :
    triangleCircumcenter p100 p100 p100 = Vec3.zero ∧
    ∀ nrm : Vec3 → Vec3,
      (NewDiagram hullTetra nrm sitesDeg []).isOk = true ∧
      (NewDiagram hullTetra nrm sitesDeg []).toOption.map Diagram.Vertices
        = some (List.replicate 4 (nrm Vec3.zero)) :=
  ⟨by with_unfolding_all rfl,
   fun nrm => ⟨by with_unfolding_all rfl, by with_unfolding_all rfl⟩⟩

/-- C4 (code refutation): on a face list whose fan around vertex 0 is
topologically inconsistent, the ordering pass reaches position 2 where no
remaining triangle's `prev` matches the previous triangle's `next`
(`findMatch` returns `none`), leaves the list as it is, and construction
nevertheless returns a diagram successfully — the stored incident list
`[0, 1, 2]` of vertex 0 violates the cyclic consistency property
(`next(T_1, 0) = 2` but `prev(T_2, 0) = 3`). -/
theorem spec_c4_eval :
    ∀ nrm : Vec3 → Vec3,
      (NewDiagram hullBad nrm sitesDeg []).isOk = true ∧
      (NewTriangulation hullBad sitesDeg []).toOption.map (fun t => IncidentTrianglesOf t 0)
        = some [0, 1, 2] ∧
      (NewTriangulation hullBad sitesDeg []).toOption.map
          (fun t => findMatch (prevOf 0 t.Triangles) (nextOf 0 t.Triangles 1) [2])
        = some none ∧
      (NewTriangulation hullBad sitesDeg []).toOption.map
          (fun t => chainHolds 0 t.Triangles (IncidentTrianglesOf t 0))
        = some false ∧
      (NewTriangulation hullBad sitesDeg []).toOption.map
          (fun t => (nextOf 0 t.Triangles 1, prevOf 0 t.Triangles 2))
        = some (some 2, some 3) :=
  fun nrm =>
    ⟨by with_unfolding_all rfl, by with_unfolding_all rfl, by with_unfolding_all rfl,
     by with_unfolding_all rfl, by with_unfolding_all rfl⟩

/-!
## Correctness of the incidence-ordering pass on topologically consistent
fans (claim C2)
-/

lemma findMatch_none_iff (pf : Nat → Option Nat) (target : Option Nat) :
    ∀ l : List Nat, findMatch pf target l = none ↔ ∀ x ∈ l, pf x ≠ target := by
  intro l
  induction l with
  | nil => simp [findMatch]
  | cons x xs ih =>
    by_cases hx : pf x = target
    · simp [findMatch, hx]
    · simp [findMatch, hx, Option.map_eq_none', ih]

lemma findMatch_some_getD (pf : Nat → Option Nat) (target : Option Nat) :
    ∀ (l : List Nat) (j : Nat), findMatch pf target l = some j →
      j < l.length ∧ pf (l.getD j 0) = target := by
  intro l
  induction l with
  | nil => intro j h; cases h
  | cons x xs ih =>
    intro j h
    by_cases hx : pf x = target
    · simp only [findMatch, if_pos hx] at h
      cases h
      exact ⟨by simp, hx⟩
    · simp only [findMatch, if_neg hx, Option.map_eq_some'] at h
      obtain ⟨j', hj', rfl⟩ := h
      obtain ⟨hlt, hgd⟩ := ih j' hj'
      exact ⟨by simp; omega, hgd⟩

lemma perm_getD_cons_eraseIdx :
    ∀ (l : List Nat) (j : Nat), j < l.length → l.Perm (l.getD j 0 :: l.eraseIdx j) := by
  intro l
  induction l with
  | nil => intro j hj; simp at hj
  | cons a t ih =>
    intro j hj
    cases j with
    | zero => simp
    | succ j =>
      have hj' : j < t.length := by simpa using hj
      have h1 : (a :: t).Perm (a :: t.getD j 0 :: t.eraseIdx j) := (ih j hj').cons a
      exact h1.trans (List.Perm.swap (t.getD j 0) a (t.eraseIdx j))

lemma set_perm_cons_eraseIdx :
    ∀ (l : List Nat) (j : Nat), j < l.length → ∀ b : Nat,
      (l.set j b).Perm (b :: l.eraseIdx j) := by
  intro l
  induction l with
  | nil => intro j hj; simp at hj
  | cons a t ih =>
    intro j hj b
    cases j with
    | zero => simp
    | succ j =>
      have hj' : j < t.length := by simpa using hj
      have h1 : (a :: t.set j b).Perm (a :: b :: t.eraseIdx j) := (ih j hj' b).cons a
      exact h1.trans (List.Perm.swap b a (t.eraseIdx j))

/-- The selection pass recovers the fan order exactly: if the remaining
elements are a permutation of a fan tail chained after `p`, all elements
are distinct and `prev` values identify elements uniquely, then the pass
returns the fan tail. -/
lemma chainSortAux_fan (nf pf : Nat → Option Nat) :
    ∀ (fanTail r : List Nat) (p : Nat),
      r.Perm fanTail →
      (p :: fanTail).Nodup →
      fanChain nf pf p fanTail →
      (∀ a ∈ p :: fanTail, ∀ b ∈ p :: fanTail, pf a = pf b → a = b) →
      chainSortAux nf pf r.length p r = fanTail := by
  intro fanTail
  induction fanTail with
  | nil =>
    intro r p hperm _ _ _
    rw [List.Perm.eq_nil hperm]
    rfl
  | cons c1 rest ih =>
    intro r p hperm hnd hchain hinj
    obtain ⟨hnp, hchain'⟩ := hchain
    cases r with
    | nil => exact absurd hperm.length_eq (by simp)
    | cons h t =>
      have hrnodup : (h :: t).Nodup := hperm.symm.nodup ((List.nodup_cons.mp hnd).2)
      have hmemr : ∀ x ∈ h :: t, x ∈ p :: c1 :: rest := by
        intro x hx
        exact List.mem_cons_of_mem p (hperm.mem_iff.mp hx)
      have hc1r : c1 ∈ h :: t := hperm.mem_iff.mpr (List.mem_cons_self c1 rest)
      show chainSortAux nf pf (t.length + 1) p (h :: t) = c1 :: rest
      have hinj' : ∀ a ∈ c1 :: rest, ∀ b ∈ c1 :: rest, pf a = pf b → a = b :=
        fun a ha b hb hab =>
          hinj a (List.mem_cons_of_mem p ha) b (List.mem_cons_of_mem p hb) hab
      by_cases hc1t : c1 ∈ t
      · -- the matching element sits strictly after the current position;
        -- it is found and swapped into place
        cases hfm : findMatch pf (nf p) t with
        | none =>
          exfalso
          exact (findMatch_none_iff pf (nf p) t).mp hfm c1 hc1t (by rw [← hnp])
        | some j =>
          obtain ⟨hjlt, hgd⟩ := findMatch_some_getD pf (nf p) t j hfm
          have hgdmem : t.getD j 0 ∈ t := by
            rw [List.getD_eq_getElem _ _ hjlt]
            exact List.getElem_mem hjlt
          have hgdc1 : t.getD j 0 = c1 := by
            apply hinj
            · exact hmemr _ (List.mem_cons_of_mem h hgdmem)
            · exact List.mem_cons_of_mem p (List.mem_cons_self c1 rest)
            · rw [hgd, hnp]
          have hpermset : (t.set j h).Perm rest := by
            have hA : t.Perm (c1 :: t.eraseIdx j) := by
              have := perm_getD_cons_eraseIdx t j hjlt
              rwa [hgdc1] at this
            have hB : (t.set j h).Perm (h :: t.eraseIdx j) :=
              set_perm_cons_eraseIdx t j hjlt h
            have hr : (c1 :: rest).Perm (c1 :: h :: t.eraseIdx j) :=
              hperm.symm.trans ((hA.cons h).trans (List.Perm.swap c1 h (t.eraseIdx j)))
            exact hB.trans (List.Perm.cons_inv hr).symm
          simp only [chainSortAux, hfm, hgdc1]
          have hlen : t.length = (t.set j h).length := (List.length_set t j h).symm
          rw [hlen, ih (t.set j h) c1 hpermset ((List.nodup_cons.mp hnd).2) hchain' hinj']
      · -- the matching element is already in place at the current
        -- position; the scan over the later positions finds nothing and
        -- nothing moves
        have hh : h = c1 := by
          rcases List.mem_cons.mp hc1r with h' | h'
          · exact h'.symm
          · exact absurd h' hc1t
        subst hh
        have hfm : findMatch pf (nf p) t = none := by
          rw [findMatch_none_iff]
          intro x hx hpx
          have hxh : x = h := by
            apply hinj
            · exact hmemr _ (List.mem_cons_of_mem h hx)
            · exact List.mem_cons_of_mem p (List.mem_cons_self h rest)
            · rw [hpx, hnp]
          exact (List.nodup_cons.mp hrnodup).1 (hxh ▸ hx)
        simp only [chainSortAux, hfm]
        rw [ih t h (List.Perm.cons_inv hperm) ((List.nodup_cons.mp hnd).2) hchain' hinj']

/-- `sortIncidentTriangleIndicesCCW` recovers the fan order whose head is
the list's first element. -/
lemma sortIncident_eq_fan (v : Nat) (tris : List Tri) (inc fan : List Nat)
    (hne : inc ≠ []) (hperm : inc.Perm fan) (hhead : inc.head? = fan.head?)
    (hnd : fan.Nodup)
    (hcyc : fanCyclic (nextOf v tris) (prevOf v tris) fan)
    (hinj : ∀ a ∈ fan, ∀ b ∈ fan, prevOf v tris a = prevOf v tris b → a = b) :
    sortIncidentTriangleIndicesCCW v tris inc = fan := by
  cases inc with
  | nil => exact absurd rfl hne
  | cons h t =>
    cases fan with
    | nil => exact absurd hperm.length_eq (by simp)
    | cons f fs =>
      have hhf : h = f := by
        simp only [List.head?] at hhead
        exact Option.some_injective _ hhead
      subst hhf
      obtain ⟨hchain, _⟩ := hcyc
      show h :: chainSortAux (nextOf v tris) (prevOf v tris) t.length h t = h :: fs
      rw [chainSortAux_fan (nextOf v tris) (prevOf v tris) fs t h
        (List.Perm.cons_inv hperm) hnd hchain hinj]

lemma fanChain_getD (nf pf : Nat → Option Nat) :
    ∀ (fs : List Nat) (f : Nat), fanChain nf pf f fs →
      ∀ i, i + 1 < (f :: fs).length →
        nf ((f :: fs).getD i 0) = pf ((f :: fs).getD (i + 1) 0) := by
  intro fs
  induction fs with
  | nil => intro f _ i hi; simp at hi
  | cons c cs ih =>
    intro f hchain i hi
    obtain ⟨h1, h2⟩ := hchain
    cases i with
    | zero => exact h1
    | succ i =>
      have := ih c h2 i (by simpa using hi)
      exact this

lemma getLast_eq_getD (l : List Nat) (hne : l ≠ []) :
    l.getLast hne = l.getD (l.length - 1) 0 := by
  rw [List.getLast_eq_getElem, List.getD_eq_getElem]

lemma fanCyclic_getD (nf pf : Nat → Option Nat) (fan : List Nat)
    (hcyc : fanCyclic nf pf fan) :
    ∀ i, i < fan.length → nf (fan.getD i 0) = pf (fan.getD ((i + 1) % fan.length) 0) := by
  cases fan with
  | nil => intro i hi; simp at hi
  | cons f fs =>
    intro i hi
    obtain ⟨hchain, hwrap⟩ := hcyc
    by_cases hlast : i + 1 < (f :: fs).length
    · rw [Nat.mod_eq_of_lt hlast]
      exact fanChain_getD nf pf fs f hchain i hlast
    · have hieq : i = (f :: fs).length - 1 := by simp at hi hlast ⊢; omega
      have hmod : (i + 1) % (f :: fs).length = 0 := by
        have : i + 1 = (f :: fs).length := by simp at hi hlast ⊢; omega
        rw [this, Nat.mod_self]
      rw [hmod, hieq, ← getLast_eq_getD (f :: fs) (List.cons_ne_nil f fs)]
      exact hwrap

/-- C2: for every site `v` whose unordered incident list is a permutation
of a topologically consistent cyclic fan (the §4.2 hull contract: each
triangle has exactly one cyclic neighbor on each side and the fan closes
into a single cycle) starting at the list's first element, the stored
order produced by `sortIncidentTriangleIndicesCCW` satisfies
`next(T_i, v) = prev(T_{(i+1) mod k}, v)` for every `i`, the wrap-around
pair included. -/
theorem spec_c2 (v : Nat) (tris : List Tri) (inc fan : List Nat)
    (hne : inc ≠ []) (hperm : inc.Perm fan) (hhead : inc.head? = fan.head?)
    (hnd : fan.Nodup)
    (hcyc : fanCyclic (nextOf v tris) (prevOf v tris) fan)
    (hinj : ∀ a ∈ fan, ∀ b ∈ fan, prevOf v tris a = prevOf v tris b → a = b) :
    ∀ i, i < (sortIncidentTriangleIndicesCCW v tris inc).length →
      nextOf v tris ((sortIncidentTriangleIndicesCCW v tris inc).getD i 0)
        = prevOf v tris ((sortIncidentTriangleIndicesCCW v tris inc).getD
            ((i + 1) % (sortIncidentTriangleIndicesCCW v tris inc).length) 0) := by
  rw [sortIncident_eq_fan v tris inc fan hne hperm hhead hnd hcyc hinj]
  exact fanCyclic_getD (nextOf v tris) (prevOf v tris) fan hcyc

/-- Witness for C2: the tetrahedron fan around vertex 0, scrambled input
order `[0, 1, 2]`, checked at the wrap-around position `i = 2`. -/
theorem spec_c2_witness :
    nextOf 0 trisFan ((sortIncidentTriangleIndicesCCW 0 trisFan [0, 1, 2]).getD 2 0)
      = prevOf 0 trisFan ((sortIncidentTriangleIndicesCCW 0 trisFan [0, 1, 2]).getD
          ((2 + 1) % (sortIncidentTriangleIndicesCCW 0 trisFan [0, 1, 2]).length) 0) :=
  spec_c2 0 trisFan [0, 1, 2] [0, 2, 1] (by decide) (by decide) rfl (by decide)
    ⟨⟨rfl, rfl, trivial⟩, rfl⟩ (by decide) 2 (by decide)

end S2V
